import Mathlib

/-!
Shallow embedding of `src/milterfrom.c` (the milterfrom mail filter core).

Strings are modelled as `List Char` (the bytes of a NUL-terminated C string,
NUL excluded; the inputs handled here are ASCII).  The milter runtime context
(`SMFICTX`) is modelled as the data the handlers actually touch through it:
the private-data slot (`smfi_getpriv`/`smfi_setpriv`) and the reply set by
`smfi_setreply`.  The C handlers `mlfi_header` and `mlfi_eom` dereference the
private-data pointer without a NULL check; the embedding makes that visible by
returning `Option`, with `none` standing for the undefined behaviour of a NULL
dereference.
-/

set_option autoImplicit false

namespace Milterfrom

/-- The milter verdict codes (`sfsistat` values) used by this filter. -/
inductive Sfsistat where
  | SMFIS_CONTINUE
  | SMFIS_REJECT
  | SMFIS_TEMPFAIL
  | SMFIS_NOREPLY
  deriving DecidableEq, Repr

/-- libmilter protocol-step flag: do not send connection information
(`mfdef.h`, external to this repository; standard sendmail value). -/
def SMFIP_NOCONNECT : Nat := 0x00000001

/-- libmilter protocol-step flag: do not send HELO (`mfdef.h`, external to
this repository; standard sendmail value). -/
def SMFIP_NOHELO : Nat := 0x00000002

/-- libmilter protocol-step flag: do not send RCPT (`mfdef.h`, external to
this repository; standard sendmail value). -/
def SMFIP_NORCPT : Nat := 0x00000008

/-- libmilter protocol-step flag: no reply expected for headers (`mfdef.h`,
external to this repository; standard sendmail value). -/
def SMFIP_NR_HDR : Nat := 0x00000080

/-- ASCII lower-casing of one byte, as C `tolower` behaves on ASCII input
(the case-mapping underlying `strcasecmp`/`strncasecmp`). -/
def lowerChar (c : Char) : Char :=
  if 'A' ≤ c ∧ c ≤ 'Z' then Char.ofNat (c.toNat + 32) else c

/-- C predicate `strcasecmp a b == 0`: the two strings are equal up to ASCII case. -/
def strcasecmp_eq (a b : List Char) : Bool :=
  a.map lowerChar == b.map lowerChar

/-- C predicate `strncasecmp a b n == 0`: the first `n` bytes (or up to the end of the
shorter string) are equal up to ASCII case. -/
def strncasecmp_eq (a b : List Char) (n : Nat) : Bool :=
  (a.take n).map lowerChar == (b.take n).map lowerChar

/-- The literal `"from"` that `mlfi_header` compares field names against. -/
def from_str : List Char := "from".toList

/-- C type `struct mlfiPriv`: the per-message session attached to the context. -/
structure MlfiPriv where
  is_auth : Bool
  env_from : List Char
  env_from_len : Nat
  reject : Bool
  deriving DecidableEq, Repr

/-- The reply set by `smfi_setreply`: (numeric class, extended status, text). -/
structure Reply where
  rcode : String
  xcode : String
  message : String
  deriving DecidableEq, Repr

/-- The observable part of the milter context `SMFICTX`: the private-data
slot and the reply last set on it. -/
structure Ctx where
  priv : Option MlfiPriv
  reply : Option Reply
  deriving DecidableEq, Repr

/-- The loop of `parse_address`: walk the string with index `i`, remembering
the index of the most recent `<` in `pos_open` and of the most recent `>` in
`pos_close` (C uses `-1` for "not seen"; here `Option Nat`). -/
def scanBrackets : List Char → Nat → Option Nat → Option Nat → Option Nat × Option Nat
  | [], _, pos_open, pos_close => (pos_open, pos_close)
  | a :: rest, i, pos_open, pos_close =>
    if a = '<' then scanBrackets rest (i + 1) (some i) pos_close
    else if a = '>' then scanBrackets rest (i + 1) pos_open (some i)
    else scanBrackets rest (i + 1) pos_open pos_close

/-- C function `parse_address`: if the last `<` of the field strictly precedes the last
`>`, the result is the slice strictly between them (`address + pos_open + 1`
with length `pos_close - pos_open - 1`); otherwise the whole field.  The C
function returns the pair (pointer, length); since the length always equals
the length of the returned slice, the embedding returns the slice. -/
def parse_address (address : List Char) : List Char :=
  match scanBrackets address 0 none none with
  | (some pos_open, some pos_close) =>
    if pos_open < pos_close then (address.drop (pos_open + 1)).take (pos_close - pos_open - 1)
    else address
  | (some _, none) => address
  | (none, _) => address

/-- C function `mlfi_cleanup`: free the session if present and clear the private slot;
a missing session returns immediately. -/
def mlfi_cleanup (ctx : Ctx) : Ctx :=
  match ctx.priv with
  | none => ctx
  | some _ => { ctx with priv := none }

/-- C function `mlfi_envfrom`: allocate a session (`allocPriv` models the success of
`malloc`, `allocCopy` of `strndup`), extract the envelope address, and store
the session.  `auth_type` is the result of `smfi_getsymval ctx "\x7bauth_type\x7d"`. -/
def mlfi_envfrom (allocPriv allocCopy : Bool) (ctx : Ctx) (envfrom : List Char)
    (auth_type : Option (List Char)) : Ctx × Sfsistat :=
  if !allocPriv then (ctx, Sfsistat.SMFIS_TEMPFAIL)
  else
    let from_ := parse_address envfrom
    if !allocCopy then (ctx, Sfsistat.SMFIS_TEMPFAIL)
    else
      let priv : MlfiPriv :=
        { is_auth := auth_type.isSome
          env_from := from_
          env_from_len := from_.length
          reject := false }
      ({ ctx with priv := some priv }, Sfsistat.SMFIS_CONTINUE)

/-- C function `mlfi_header`: when the sender is authenticated and the message not yet
rejected, compare a `From:` header against the stored envelope address and
set the sticky `reject` flag on mismatch.  The C code dereferences
`MLFIPRIV` without a NULL check, so a missing session is undefined behaviour,
modelled as `none`. -/
def mlfi_header (mta_caps : Nat) (ctx : Ctx) (headerf headerv : List Char) :
    Option (Ctx × Sfsistat) :=
  match ctx.priv with
  | none => none
  | some priv =>
    let priv2 :=
      if priv.is_auth && !priv.reject then
        if strcasecmp_eq headerf from_str then
          let from_ := parse_address headerv
          if from_.length != priv.env_from_len
              || !(strncasecmp_eq from_ priv.env_from from_.length) then
            { priv with reject := true }
          else priv
        else priv
      else priv
    some ({ ctx with priv := some priv2 },
      if mta_caps &&& SMFIP_NR_HDR != 0 then Sfsistat.SMFIS_NOREPLY
      else Sfsistat.SMFIS_CONTINUE)

/-- C function `mlfi_eom`: reject the message when the sticky flag is set, with the fixed
reply, destroying the session either way.  The C code dereferences `MLFIPRIV`
without a NULL check, so a missing session is undefined behaviour (`none`). -/
def mlfi_eom (ctx : Ctx) : Option (Ctx × Sfsistat) :=
  match ctx.priv with
  | none => none
  | some priv =>
    if priv.reject then
      let rep : Reply :=
        { rcode := "550", xcode := "5.7.1"
          message := "Rejected due to unmatching envelope and header sender." }
      some (mlfi_cleanup { ctx with reply := some rep }, Sfsistat.SMFIS_REJECT)
    else
      some (mlfi_cleanup ctx, Sfsistat.SMFIS_CONTINUE)

/-- C function `mlfi_abort`: unconditionally clean up and go on. -/
def mlfi_abort (ctx : Ctx) : Ctx × Sfsistat :=
  (mlfi_cleanup ctx, Sfsistat.SMFIS_CONTINUE)

/-- Result of `mlfi_negotiate`: the new process-wide `mta_caps` and the four
output masks, plus the returned verdict. -/
structure NegotiateResult where
  mta_caps : Nat
  pf0 : Nat
  pf1 : Nat
  pf2 : Nat
  pf3 : Nat
  verdict : Sfsistat
  deriving DecidableEq, Repr

/-- C function `mlfi_negotiate`: disable connect/HELO/RCPT, store the offered `f1` into
the process-wide `mta_caps`, and request `SMFIP_NR_HDR` only if offered. -/
def mlfi_negotiate (f0 f1 f2 f3 : Nat) : NegotiateResult :=
  let base := SMFIP_NOCONNECT ||| SMFIP_NOHELO ||| SMFIP_NORCPT
  let caps := f1
  let pf1 := if caps &&& SMFIP_NR_HDR != 0 then base ||| SMFIP_NR_HDR else base
  { mta_caps := caps, pf0 := 0, pf1 := pf1, pf2 := 0, pf3 := 0
    verdict := Sfsistat.SMFIS_CONTINUE }

/-- Deliver a list of header events in order, threading the context; `none`
as soon as one header event hits undefined behaviour. -/
def processHeaders (mta_caps : Nat) (ctx : Ctx) :
    List (List Char × List Char) → Option Ctx
  | [] => some ctx
  | (f, v) :: rest =>
    match mlfi_header mta_caps ctx f v with
    | none => none
    | some (ctx2, _) => processHeaders mta_caps ctx2 rest

/-- One whole message under the protocol's event order: envelope-sender event
(with both allocations succeeding), then the header events, then
end-of-message; yields the final context and the end-of-message verdict. -/
def processMessage (mta_caps : Nat) (envfrom : List Char)
    (auth_type : Option (List Char)) (headers : List (List Char × List Char)) :
    Option (Ctx × Sfsistat) :=
  let ctx1 :=
    (mlfi_envfrom true true { priv := none, reply := none } envfrom auth_type).1
  match processHeaders mta_caps ctx1 headers with
  | none => none
  | some ctx2 => mlfi_eom ctx2

/-- Spec-side helper: index of the last occurrence of `ch` in the list, if
any (characterised against the code by `lastIdxOf_get` and
`lastIdxOf_eq_none`). -/
def lastIdxOf (ch : Char) : List Char → Option Nat
  | [] => none
  | a :: rest =>
    match lastIdxOf ch rest with
    | some k => some (k + 1)
    | none => if a = ch then some 0 else none

/-- Spec-side address equality: length-exact, byte case-insensitive.  Since
`List.map` preserves length, this is equality of the lower-cased strings. -/
def addrEq (a b : List Char) : Bool :=
  (a.length == b.length) && (a.map lowerChar == b.map lowerChar)

lemma lastIdxOf_get {ch : Char} {s : List Char} {i : Nat}
    (h : lastIdxOf ch s = some i) : s.get? i = some ch := by
  induction s generalizing i with
  | nil => simp [lastIdxOf] at h
  | cons a rest ih =>
    cases hrest : lastIdxOf ch rest with
    | some k =>
      rw [lastIdxOf, hrest] at h
      obtain rfl : k + 1 = i := Option.some.inj h
      simpa using ih hrest
    | none =>
      rw [lastIdxOf, hrest] at h
      by_cases ha : a = ch
      · rw [if_pos ha] at h
        obtain rfl : 0 = i := Option.some.inj h
        simp [ha]
      · rw [if_neg ha] at h
        exact absurd h (by simp)

lemma lastIdxOf_eq_none {ch : Char} {s : List Char} :
    lastIdxOf ch s = none ↔ ch ∉ s := by
  induction s with
  | nil => simp [lastIdxOf]
  | cons a rest ih =>
    cases hrest : lastIdxOf ch rest with
    | some k =>
      have hmem : ch ∈ rest := List.mem_iff_get?.mpr ⟨k, lastIdxOf_get hrest⟩
      simp [lastIdxOf, hrest, hmem]
    | none =>
      have hnr : ch ∉ rest := ih.mp hrest
      rw [lastIdxOf, hrest]
      by_cases ha : a = ch
      · subst ha; simp
      · simp only [if_neg ha, List.mem_cons, true_iff]
        rintro (h | h)
        · exact ha h.symm
        · exact hnr h

lemma lastIdxOf_last {ch : Char} {s : List Char} {i : Nat}
    (h : lastIdxOf ch s = some i) : ∀ j, i < j → s.get? j ≠ some ch := by
  induction s generalizing i with
  | nil => simp [lastIdxOf] at h
  | cons a rest ih =>
    intro j hij
    cases hrest : lastIdxOf ch rest with
    | some k =>
      rw [lastIdxOf, hrest] at h
      obtain rfl : k + 1 = i := Option.some.inj h
      match j, hij with
      | j + 1, hij => simpa using ih hrest j (by omega)
    | none =>
      rw [lastIdxOf, hrest] at h
      have hnr : ch ∉ rest := lastIdxOf_eq_none.mp hrest
      match j, hij with
      | j + 1, _ =>
        simp only [List.get?]
        intro hget
        exact hnr (List.mem_iff_get?.mpr ⟨j, hget⟩)

lemma elimStep (ch a : Char) (rest : List Char) (i : Nat) (acc : Option Nat) :
    (lastIdxOf ch (a :: rest)).elim acc (fun k => some (i + k)) =
      (lastIdxOf ch rest).elim (if a = ch then some i else acc)
        (fun k => some (i + 1 + k)) := by
  cases hro : lastIdxOf ch rest with
  | some k =>
    simp only [lastIdxOf, hro, Option.elim]
    congr 1
    omega
  | none =>
    by_cases h1 : a = ch
    · simp only [lastIdxOf, hro, if_pos h1, Option.elim]
      rw [Nat.add_zero]
    · simp only [lastIdxOf, hro, if_neg h1, Option.elim]

lemma scanBrackets_spec (s : List Char) : ∀ (i : Nat) (po pc : Option Nat),
    scanBrackets s i po pc =
      ((lastIdxOf '<' s).elim po (fun k => some (i + k)),
       (lastIdxOf '>' s).elim pc (fun k => some (i + k))) := by
  induction s with
  | nil => intro i po pc; simp [scanBrackets, lastIdxOf]
  | cons a rest ih =>
    intro i po pc
    have step : scanBrackets (a :: rest) i po pc =
        scanBrackets rest (i + 1) (if a = '<' then some i else po)
          (if a = '>' then some i else pc) := by
      by_cases h1 : a = '<'
      · have h2 : a ≠ '>' := by subst h1; decide
        simp only [scanBrackets, if_pos h1, if_neg h2]
      · by_cases h2 : a = '>'
        · simp only [scanBrackets, if_neg h1, if_pos h2]
        · simp only [scanBrackets, if_neg h1, if_neg h2]
    rw [step, ih, elimStep '<' a rest i po, elimStep '>' a rest i pc]

lemma scanBrackets_eq (s : List Char) :
    scanBrackets s 0 none none = (lastIdxOf '<' s, lastIdxOf '>' s) := by
  rw [scanBrackets_spec s 0 none none]
  cases lastIdxOf '<' s <;> cases lastIdxOf '>' s <;> simp

lemma parse_address_of_lt {s : List Char} {o c : Nat}
    (ho : lastIdxOf '<' s = some o) (hc : lastIdxOf '>' s = some c)
    (hoc : o < c) :
    parse_address s = (s.drop (o + 1)).take (c - o - 1) := by
  rw [parse_address, scanBrackets_eq, ho, hc]
  simp [hoc]

lemma parse_address_of_ge {s : List Char} {o c : Nat}
    (ho : lastIdxOf '<' s = some o) (hc : lastIdxOf '>' s = some c)
    (hge : ¬ o < c) : parse_address s = s := by
  rw [parse_address, scanBrackets_eq, ho, hc]
  simp [hge]

lemma parse_address_no_open {s : List Char} (h : lastIdxOf '<' s = none) :
    parse_address s = s := by
  rw [parse_address, scanBrackets_eq, h]

lemma parse_address_no_close {s : List Char} (h : lastIdxOf '>' s = none) :
    parse_address s = s := by
  rw [parse_address, scanBrackets_eq, h]
  cases lastIdxOf '<' s <;> rfl

lemma lastIdxOf_lt_length {ch : Char} {s : List Char} {i : Nat}
    (h : lastIdxOf ch s = some i) : i < s.length :=
  (List.get?_eq_some.mp (lastIdxOf_get h)).1

lemma parse_address_length_of_lt {s : List Char} {o c : Nat}
    (ho : lastIdxOf '<' s = some o) (hc : lastIdxOf '>' s = some c)
    (hoc : o < c) : (parse_address s).length = c - o - 1 := by
  rw [parse_address_of_lt ho hc hoc]
  have hcl : c < s.length := lastIdxOf_lt_length hc
  rw [List.length_take, List.length_drop]
  omega

lemma header_mismatch_eq (a b : List Char) :
    ((a.length != b.length) || !(strncasecmp_eq a b a.length)) = !(addrEq a b) := by
  by_cases h : a.length = b.length
  · have hta : a.take a.length = a := List.take_length a
    have htb : b.take a.length = b := by rw [h]; exact List.take_length b
    simp only [strncasecmp_eq, addrEq]
    rw [hta, htb]
    simp [h]
  · have h1 : (a.length != b.length) = true := by
      simp [bne_iff_ne, h]
    have h2 : (a.length == b.length) = false := by
      simp [h]
    simp [strncasecmp_eq, addrEq, h1, h2]

lemma mlfi_header_priv (caps : Nat) (r : Option Reply) (p : MlfiPriv)
    (hl : p.env_from_len = p.env_from.length) (f v : List Char) :
    mlfi_header caps { priv := some p, reply := r } f v =
      some ({ priv := some { p with reject := p.reject ||
            (p.is_auth && (strcasecmp_eq f from_str
              && !(addrEq (parse_address v) p.env_from))) }, reply := r },
        if caps &&& SMFIP_NR_HDR != 0 then Sfsistat.SMFIS_NOREPLY
        else Sfsistat.SMFIS_CONTINUE) := by
  obtain ⟨au, env, lenf, rej⟩ := p
  replace hl : lenf = env.length := hl
  subst hl
  have hm := header_mismatch_eq (parse_address v) env
  by_cases hf : strcasecmp_eq f from_str = true
  · by_cases ha : addrEq (parse_address v) env = true
    · cases au <;> cases rej <;> simp [mlfi_header, hf, hm, ha]
    · replace ha : addrEq (parse_address v) env = false :=
        Bool.eq_false_iff.mpr ha
      cases au <;> cases rej <;> simp [mlfi_header, hf, hm, ha]
  · replace hf : strcasecmp_eq f from_str = false :=
      Bool.eq_false_iff.mpr hf
    cases au <;> cases rej <;> simp [mlfi_header, hf, hm]

lemma processHeaders_run (caps : Nat) (r : Option Reply)
    (hs : List (List Char × List Char)) :
    ∀ (p : MlfiPriv), p.env_from_len = p.env_from.length →
    processHeaders caps { priv := some p, reply := r } hs =
      some { priv := some { p with reject := p.reject ||
          (p.is_auth && hs.any (fun h => strcasecmp_eq h.1 from_str
            && !(addrEq (parse_address h.2) p.env_from))) }, reply := r } := by
  induction hs with
  | nil =>
    intro p hl
    obtain ⟨au, env, lenf, rej⟩ := p
    simp [processHeaders]
  | cons h rest ih =>
    intro p hl
    obtain ⟨f, v⟩ := h
    obtain ⟨au, env, lenf, rej⟩ := p
    replace hl : lenf = env.length := hl
    subst hl
    rw [processHeaders,
      mlfi_header_priv caps r ⟨au, env, env.length, rej⟩ rfl f v]
    dsimp only
    rw [ih ⟨au, env, env.length,
      rej || (au && (strcasecmp_eq f from_str
        && !(addrEq (parse_address v) env)))⟩ rfl]
    simp only [List.any_cons, Option.some.injEq, Ctx.mk.injEq,
      MlfiPriv.mk.injEq, true_and, and_true]
    cases au <;> cases rej <;>
      simp [Bool.and_or_distrib_left, Bool.or_assoc]

lemma lastIdxOf_eq_some_of {ch : Char} {s : List Char} {o : Nat}
    (h1 : s.get? o = some ch) (h2 : ∀ j, o < j → s.get? j ≠ some ch) :
    lastIdxOf ch s = some o := by
  cases hi : lastIdxOf ch s with
  | none => exact absurd (List.mem_iff_get?.mpr ⟨o, h1⟩) (lastIdxOf_eq_none.mp hi)
  | some i =>
    rcases Nat.lt_trichotomy i o with h | h | h
    · exact absurd h1 (lastIdxOf_last hi o h)
    · rw [h]
    · exact absurd (lastIdxOf_get hi) (h2 i h)

example : parse_address ("Max Mustermann <max@example.invalid>".toList)
    = "max@example.invalid".toList := by decide
example : parse_address ("max@example.invalid".toList)
    = "max@example.invalid".toList := by decide
example : parse_address ([] : List Char) = [] := by decide
example : parse_address ("<a>x<".toList) = "<a>x<".toList := by decide
example : parse_address ("<a><b>".toList) = "b".toList := by decide
example : addrEq ("User@Example.com".toList) ("user@example.com".toList) = true := by decide
example : addrEq ("a@b.com".toList) ("a@b.co".toList) = false := by decide
example : lastIdxOf '<' ("a <b> c".toList) = some 2 := by decide

/-- C2: the address extractor scans the whole input recording the position of
the last `<` and the position of the last `>`: if both occur and the last `<`
is strictly before the last `>`, it returns the substring strictly between
them, of length `close - open - 1`; otherwise (no `<`, no `>`, or the last
`<` not before the last `>`) it returns the entire input; on empty input it
returns the empty slice (and, being a total function, it never fails). -/
theorem C2_parse_address_scan (s : List Char) :
    (∀ o c, s.get? o = some '<' → (∀ j, o < j → s.get? j ≠ some '<') →
        s.get? c = some '>' → (∀ j, c < j → s.get? j ≠ some '>') → o < c →
        parse_address s = (s.drop (o + 1)).take (c - o - 1) ∧
        (parse_address s).length = c - o - 1) ∧
    ('<' ∉ s → parse_address s = s) ∧
    ('>' ∉ s → parse_address s = s) ∧
    (∀ o c, s.get? o = some '<' → (∀ j, o < j → s.get? j ≠ some '<') →
        s.get? c = some '>' → (∀ j, c < j → s.get? j ≠ some '>') → c ≤ o →
        parse_address s = s) ∧
    parse_address ([] : List Char) = [] := by
  refine ⟨?_, ?_, ?_, ?_, rfl⟩
  · intro o c ho hlo hc hlc hoc
    have ho2 := lastIdxOf_eq_some_of ho hlo
    have hc2 := lastIdxOf_eq_some_of hc hlc
    exact ⟨parse_address_of_lt ho2 hc2 hoc, parse_address_length_of_lt ho2 hc2 hoc⟩
  · intro h
    exact parse_address_no_open (lastIdxOf_eq_none.mpr h)
  · intro h
    exact parse_address_no_close (lastIdxOf_eq_none.mpr h)
  · intro o c ho hlo hc hlc hco
    exact parse_address_of_ge (lastIdxOf_eq_some_of ho hlo)
      (lastIdxOf_eq_some_of hc hlc) (by omega)

/-- Witness for C2 at the input `"x <a> y"` (last `<` at 2, last `>` at 4). -/
theorem C2_witness :
    parse_address ("x <a> y".toList) = (("x <a> y".toList).drop 3).take 1 ∧
    (parse_address ("x <a> y".toList)).length = 1 := by
  have h := (C2_parse_address_scan ("x <a> y".toList)).1 2 4
    (by decide)
    (by
      intro j hj hc
      have hl : j < 7 := (List.get?_eq_some.mp hc).1
      interval_cases j
      · exact absurd hc (by decide)
      · exact absurd hc (by decide)
      · exact absurd hc (by decide)
      · exact absurd hc (by decide))
    (by decide)
    (by
      intro j hj hc
      have hl : j < 7 := (List.get?_eq_some.mp hc).1
      interval_cases j
      · exact absurd hc (by decide)
      · exact absurd hc (by decide))
    (by decide)
  simpa using h

/-- Counterexample to C6 as stated: the input `"<a>x<"` contains the
well-formed pair `<a>` (a `<` at index 0 before a `>` at index 2, interior
`"a"`), yet `parse_address` does not return that interior: the trailing stray
`<` makes the last `<` fall after the last `>`, so the whole input is
returned. -/
theorem C6_counterexample :
    ("<a>x<".toList).get? 0 = some '<' ∧ ("<a>x<".toList).get? 2 = some '>' ∧
    (0 : Nat) < 2 ∧
    (("<a>x<".toList).drop 1).take 1 = "a".toList ∧
    parse_address ("<a>x<".toList) = "<a>x<".toList ∧
    parse_address ("<a>x<".toList) ≠ "a".toList := by
  refine ⟨by decide, by decide, by decide, by decide, by decide, by decide⟩

/-- C6 (amended): for every input in which the LAST `<` strictly precedes the
LAST `>`, the extractor returns exactly the substring strictly between those
two positions, regardless of surrounding text; (the original claim, quantified
over any well-formed pair regardless of later stray brackets, is refuted by
`C6_counterexample`). -/
theorem C6_amended_last_pair (s : List Char) (o c : Nat)
    (ho : s.get? o = some '<') (hlo : ∀ j, o < j → s.get? j ≠ some '<')
    (hc : s.get? c = some '>') (hlc : ∀ j, c < j → s.get? j ≠ some '>')
    (hoc : o < c) :
    parse_address s = (s.drop (o + 1)).take (c - o - 1) :=
  parse_address_of_lt (lastIdxOf_eq_some_of ho hlo)
    (lastIdxOf_eq_some_of hc hlc) hoc

/-- Witness for the amended C6 at `"a <b> c"` (last `<` at 2, last `>` at 4,
interior `"b"`). -/
theorem C6_amended_witness :
    parse_address ("a <b> c".toList) = (("a <b> c".toList).drop 3).take 1 := by
  have h := C6_amended_last_pair ("a <b> c".toList) 2 4
    (by decide)
    (by
      intro j hj hc
      have hl : j < 7 := (List.get?_eq_some.mp hc).1
      interval_cases j
      · exact absurd hc (by decide)
      · exact absurd hc (by decide)
      · exact absurd hc (by decide)
      · exact absurd hc (by decide))
    (by decide)
    (by
      intro j hj hc
      have hl : j < 7 := (List.get?_eq_some.mp hc).1
      interval_cases j
      · exact absurd hc (by decide)
      · exact absurd hc (by decide))
    (by decide)
  simpa using h

lemma mlfi_eom_some_true (r : Option Reply) (au : Bool) (envf : List Char)
    (lenf : Nat) :
    mlfi_eom { priv := some ⟨au, envf, lenf, true⟩, reply := r } =
      some ({ priv := none, reply := some ⟨"550", "5.7.1",
        "Rejected due to unmatching envelope and header sender."⟩ },
        Sfsistat.SMFIS_REJECT) := by
  simp [mlfi_eom, mlfi_cleanup]

lemma mlfi_eom_some_false (r : Option Reply) (au : Bool) (envf : List Char)
    (lenf : Nat) :
    mlfi_eom { priv := some ⟨au, envf, lenf, false⟩, reply := r } =
      some ({ priv := none, reply := r }, Sfsistat.SMFIS_CONTINUE) := by
  simp [mlfi_eom, mlfi_cleanup]

lemma bool_reject_iff (a : Bool) (hs : List (List Char × List Char))
    (env : List Char) :
    (a && hs.any (fun h => strcasecmp_eq h.1 from_str
        && !(addrEq (parse_address h.2) env))) = true ↔
      (a = true ∧ ∃ h ∈ hs, strcasecmp_eq h.1 from_str = true ∧
        addrEq (parse_address h.2) env = false) := by
  simp [List.any_eq_true, Bool.and_eq_true, Bool.not_eq_true']

/-- C1: over a whole message (envelope-sender event, any finite list of
header events, end-of-message event) the end-of-message verdict is `REJECT`
iff the connection was authenticated and some header named `from`
(case-insensitively) extracts to an address unequal to the stored envelope
address (length-exact, byte case-insensitive); in particular an
unauthenticated message is never rejected, and one mismatch among several
`From` headers suffices (the `reject` flag is sticky). -/
theorem C1_message_reject_iff (caps : Nat) (env : List Char)
    (auth : Option (List Char)) (hs : List (List Char × List Char)) :
    ∃ ctx verdict, processMessage caps env auth hs = some (ctx, verdict) ∧
      (verdict = Sfsistat.SMFIS_REJECT ↔
        (auth.isSome = true ∧ ∃ h ∈ hs, strcasecmp_eq h.1 from_str = true ∧
          addrEq (parse_address h.2) (parse_address env) = false)) ∧
      (auth.isSome = false → verdict ≠ Sfsistat.SMFIS_REJECT) := by
  have henv : (mlfi_envfrom true true { priv := none, reply := none } env auth).1 =
      { priv := some ⟨auth.isSome, parse_address env,
          (parse_address env).length, false⟩, reply := none } := by
    simp [mlfi_envfrom]
  have hrun := processHeaders_run caps none hs
    ⟨auth.isSome, parse_address env, (parse_address env).length, false⟩ rfl
  rw [processMessage, henv, hrun]
  dsimp only
  simp only [Bool.false_or]
  by_cases hb : (auth.isSome && hs.any (fun h => strcasecmp_eq h.1 from_str
      && !(addrEq (parse_address h.2) (parse_address env)))) = true
  · rw [hb, mlfi_eom_some_true]
    refine ⟨_, Sfsistat.SMFIS_REJECT, rfl, ?_, ?_⟩
    · exact iff_of_true rfl ((bool_reject_iff _ hs (parse_address env)).mp hb)
    · intro hfa
      have := ((bool_reject_iff _ hs (parse_address env)).mp hb).1
      rw [hfa] at this
      exact absurd this (by decide)
  · replace hb := Bool.eq_false_iff.mpr hb
    rw [hb, mlfi_eom_some_false]
    refine ⟨_, Sfsistat.SMFIS_CONTINUE, rfl, ?_, ?_⟩
    · refine iff_of_false (by decide) ?_
      intro hcon
      rw [(bool_reject_iff _ hs (parse_address env)).mpr hcon] at hb
      exact absurd hb (by decide)
    · intro _
      decide

/-- Witness for C1: authenticated message, envelope `alice@example.com`,
first `From` matching, second mismatching: the whole message is rejected. -/
theorem C1_witness :
    ∃ ctx verdict,
      processMessage 0 ("alice@example.com".toList) (some ("login".toList))
        [("From".toList, "Alice <alice@example.com>".toList),
         ("from".toList, "bob@example.com".toList)] = some (ctx, verdict) ∧
      verdict = Sfsistat.SMFIS_REJECT := by
  obtain ⟨ctx, verdict, hp, hiff, _⟩ := C1_message_reject_iff 0
    ("alice@example.com".toList) (some ("login".toList))
    [("From".toList, "Alice <alice@example.com>".toList),
     ("from".toList, "bob@example.com".toList)]
  refine ⟨ctx, verdict, hp, ?_⟩
  apply hiff.mpr
  refine ⟨rfl, ("from".toList, "bob@example.com".toList), by decide, by decide, by decide⟩

/-- C3: on a header event with an authenticated, not-yet-rejected session, a
field name equal to `"from"` case-insensitively makes the handler extract the
address from the header value and set `reject` exactly when the extracted
token's length differs from the stored envelope length or the bytes differ
case-insensitively; on equality, and for any other field name, the session is
left unchanged (and no reply is set either way). -/
theorem C3_header_update (caps : Nat) (ctx : Ctx) (p : MlfiPriv)
    (f v : List Char) (hp : ctx.priv = some p) (ha : p.is_auth = true)
    (hr : p.reject = false) (hl : p.env_from_len = p.env_from.length) :
    ∃ res : Ctx × Sfsistat, mlfi_header caps ctx f v = some res ∧
      res.1.reply = ctx.reply ∧
      (strcasecmp_eq f from_str = true →
        res.1.priv = some { p with reject :=
          ((parse_address v).length != p.env_from_len)
            || !(strncasecmp_eq (parse_address v) p.env_from
                  (parse_address v).length) } ∧
        (addrEq (parse_address v) p.env_from = true → res.1.priv = some p)) ∧
      (strcasecmp_eq f from_str = false → res.1.priv = some p) := by
  obtain ⟨cp, cr⟩ := ctx
  replace hp : cp = some p := hp
  subst hp
  obtain ⟨au, env, lenf, rej⟩ := p
  replace ha : au = true := ha
  subst ha
  replace hr : rej = false := hr
  subst hr
  replace hl : lenf = env.length := hl
  subst hl
  refine ⟨_, mlfi_header_priv caps cr ⟨true, env, env.length, false⟩ rfl f v,
    rfl, ?_, ?_⟩
  · intro hf
    constructor
    · simp only [Option.some.injEq, MlfiPriv.mk.injEq, true_and]
      rw [header_mismatch_eq]
      simp [hf]
    · intro haq
      simp [hf, haq]
  · intro hf
    simp [hf]

/-- Witness for C3: `From: c@d.com` against stored envelope `a@b.com` flips
the reject flag; the session is otherwise untouched. -/
theorem C3_witness :
    ∃ res : Ctx × Sfsistat,
      mlfi_header 0
        { priv := some ⟨true, "a@b.com".toList, 7, false⟩, reply := none }
        ("From".toList) ("c@d.com".toList) = some res ∧
      res.1.reply = none ∧
      res.1.priv = some ⟨true, "a@b.com".toList, 7, true⟩ := by
  obtain ⟨res, h1, h2, h3, _⟩ := C3_header_update 0
    { priv := some ⟨true, "a@b.com".toList, 7, false⟩, reply := none }
    ⟨true, "a@b.com".toList, 7, false⟩ ("From".toList) ("c@d.com".toList)
    rfl rfl rfl rfl
  refine ⟨res, h1, h2, ?_⟩
  rw [(h3 (by decide)).1]
  decide

/-- C4: on an end-of-message event with an existing session, a set `reject`
flag yields exactly the fixed reply
`("550", "5.7.1", "Rejected due to unmatching envelope and header sender.")`
with verdict `REJECT` and session destroyed; an unset flag destroys the
session, leaves the reply untouched and yields `CONTINUE`. -/
theorem C4_eom_reply (ctx : Ctx) (p : MlfiPriv) (hp : ctx.priv = some p) :
    (p.reject = true →
      mlfi_eom ctx = some ({ priv := none, reply := some ⟨"550", "5.7.1",
        "Rejected due to unmatching envelope and header sender."⟩ },
        Sfsistat.SMFIS_REJECT)) ∧
    (p.reject = false →
      mlfi_eom ctx = some ({ priv := none, reply := ctx.reply },
        Sfsistat.SMFIS_CONTINUE)) := by
  obtain ⟨cp, cr⟩ := ctx
  replace hp : cp = some p := hp
  subst hp
  obtain ⟨au, env, lenf, rej⟩ := p
  constructor
  · intro h
    replace h : rej = true := h
    subst h
    exact mlfi_eom_some_true cr au env lenf
  · intro h
    replace h : rej = false := h
    subst h
    exact mlfi_eom_some_false cr au env lenf

/-- Witness for C4: a rejected session produces the fixed 550 reply. -/
theorem C4_witness :
    mlfi_eom { priv := some ⟨true, "a".toList, 1, true⟩, reply := none } =
      some ({ priv := none, reply := some ⟨"550", "5.7.1",
        "Rejected due to unmatching envelope and header sender."⟩ },
        Sfsistat.SMFIS_REJECT) :=
  (C4_eom_reply { priv := some ⟨true, "a".toList, 1, true⟩, reply := none }
    ⟨true, "a".toList, 1, true⟩ rfl).1 rfl

/-- C5 (claim refuted by the code): with no session in the private slot the C
handlers `mlfi_header` and `mlfi_eom` do not perform a silent no-op — they
dereference the NULL `MLFIPRIV` pointer (`priv->is_auth`, `priv->reject`),
which the embedding records as `none` (undefined behaviour / crash) rather
than a normal return. -/
theorem C5_null_session_deref :
    mlfi_header 0 { priv := none, reply := none } ("From".toList)
        ("x".toList) = none ∧
    mlfi_eom { priv := none, reply := none } = none := by
  constructor <;> rfl

/-- C7: negotiation always returns `CONTINUE`; the requested protocol-step
mask always has the no-connect, no-HELO and no-RCPT bits set; it includes the
no-reply-after-header bit iff the offered mask `f1` includes it; and the
offered mask is stored in the process-wide capability state (the `mta_caps`
value that `mlfi_header` later reads). -/
theorem C7_negotiate_mask (f0 f1 f2 f3 : Nat) :
    (mlfi_negotiate f0 f1 f2 f3).verdict = Sfsistat.SMFIS_CONTINUE ∧
    (mlfi_negotiate f0 f1 f2 f3).pf1 &&& SMFIP_NOCONNECT ≠ 0 ∧
    (mlfi_negotiate f0 f1 f2 f3).pf1 &&& SMFIP_NOHELO ≠ 0 ∧
    (mlfi_negotiate f0 f1 f2 f3).pf1 &&& SMFIP_NORCPT ≠ 0 ∧
    ((mlfi_negotiate f0 f1 f2 f3).pf1 &&& SMFIP_NR_HDR ≠ 0 ↔
      f1 &&& SMFIP_NR_HDR ≠ 0) ∧
    (mlfi_negotiate f0 f1 f2 f3).mta_caps = f1 := by
  have hp : (mlfi_negotiate f0 f1 f2 f3).pf1 =
      (if (f1 &&& SMFIP_NR_HDR != 0) = true then
        (SMFIP_NOCONNECT ||| SMFIP_NOHELO ||| SMFIP_NORCPT) ||| SMFIP_NR_HDR
      else SMFIP_NOCONNECT ||| SMFIP_NOHELO ||| SMFIP_NORCPT) := rfl
  by_cases h : (f1 &&& SMFIP_NR_HDR != 0) = true
  · rw [hp, if_pos h]
    have hne : f1 &&& SMFIP_NR_HDR ≠ 0 := bne_iff_ne.mp h
    exact ⟨rfl, by decide, by decide, by decide,
      iff_of_true (by decide) hne, rfl⟩
  · rw [hp, if_neg h]
    have heq : f1 &&& SMFIP_NR_HDR = 0 := by
      simpa [bne_iff_ne] using h
    refine ⟨rfl, by decide, by decide, by decide,
      iff_of_false (by decide) ?_, rfl⟩
    simp [heq]

/-- Witness for C7 with offered mask `f1 = SMFIP_NR_HDR`: the flag is echoed
back and the three no-step bits are set. -/
theorem C7_witness :
    (mlfi_negotiate 0 SMFIP_NR_HDR 0 0).verdict = Sfsistat.SMFIS_CONTINUE ∧
    (mlfi_negotiate 0 SMFIP_NR_HDR 0 0).pf1 &&& SMFIP_NR_HDR ≠ 0 ∧
    (mlfi_negotiate 0 SMFIP_NR_HDR 0 0).mta_caps = SMFIP_NR_HDR := by
  obtain ⟨h1, _, _, _, h5, h6⟩ := C7_negotiate_mask 0 SMFIP_NR_HDR 0 0
  exact ⟨h1, h5.mpr (by decide), h6⟩

/-- C8: an abort event unconditionally destroys any existing session, sets no
reply and returns `CONTINUE`; and `mlfi_cleanup` is idempotent — cleaning up
an already-absent session (for instance right after an abort destroyed it) is
a no-op. -/
theorem C8_abort_idempotent_cleanup (ctx : Ctx) :
    mlfi_abort ctx = ({ ctx with priv := none }, Sfsistat.SMFIS_CONTINUE) ∧
    (mlfi_abort ctx).1.reply = ctx.reply ∧
    mlfi_cleanup { ctx with priv := none } = { ctx with priv := none } ∧
    mlfi_cleanup (mlfi_cleanup ctx) = mlfi_cleanup ctx := by
  obtain ⟨cp, cr⟩ := ctx
  cases cp <;> simp [mlfi_abort, mlfi_cleanup]

/-- Witness for C8 on a context that still holds a session. -/
theorem C8_witness :
    mlfi_abort { priv := some ⟨true, "a".toList, 1, false⟩, reply := none } =
      ({ priv := none, reply := none }, Sfsistat.SMFIS_CONTINUE) ∧
    mlfi_cleanup { priv := none, reply := none } =
      { priv := none, reply := none } :=
  ⟨(C8_abort_idempotent_cleanup
      { priv := some ⟨true, "a".toList, 1, false⟩, reply := none }).1,
    (C8_abort_idempotent_cleanup { priv := none, reply := none }).2.2.1⟩

/-- C9: on the envelope-sender event, a failed allocation (of the session or
of the address copy) yields `TEMPFAIL` — a temporary failure, not a rejection
and not a crash — leaving the context unchanged; a successful allocation
yields `CONTINUE` with a session whose envelope address is the extracted
slice of the envelope value with matching stored length, whose `is_auth`
records presence of the `auth_type` indicator, and whose reject flag is
false. -/
theorem C9_envfrom_alloc (allocPriv allocCopy : Bool) (ctx : Ctx)
    (env : List Char) (auth : Option (List Char)) :
    (allocPriv = false →
      mlfi_envfrom allocPriv allocCopy ctx env auth =
        (ctx, Sfsistat.SMFIS_TEMPFAIL)) ∧
    (allocCopy = false →
      mlfi_envfrom allocPriv allocCopy ctx env auth =
        (ctx, Sfsistat.SMFIS_TEMPFAIL)) ∧
    (allocPriv = true → allocCopy = true →
      mlfi_envfrom allocPriv allocCopy ctx env auth =
        ({ ctx with priv := some ⟨auth.isSome, parse_address env,
            (parse_address env).length, false⟩ },
          Sfsistat.SMFIS_CONTINUE)) := by
  cases allocPriv <;> cases allocCopy <;>
    simp [mlfi_envfrom]

/-- Witness for C9: successful allocation on `"A <a@b>"` stores the slice
`"a@b"` with length 3, `is_auth` true, reject false. -/
theorem C9_witness :
    mlfi_envfrom true true { priv := none, reply := none }
        ("A <a@b>".toList) (some ("login".toList)) =
      ({ priv := some ⟨true, "a@b".toList, 3, false⟩, reply := none },
        Sfsistat.SMFIS_CONTINUE) := by
  rw [(C9_envfrom_alloc true true { priv := none, reply := none }
    ("A <a@b>".toList) (some ("login".toList))).2.2 rfl rfl]
  decide

/-- C10: only the end-of-message handler can return `REJECT`: the
envelope-sender handler returns only `CONTINUE` or `TEMPFAIL`; whenever the
header handler returns a verdict it is `NOREPLY` or `CONTINUE`, determined
solely by the process-wide negotiated mask and independent of the header
content and session state; and the abort and negotiate handlers always return
`CONTINUE`. -/
theorem C10_verdict_ranges (caps : Nat) (ap ac : Bool) (ctx : Ctx)
    (env f v : List Char) (auth : Option (List Char)) (f0 f1 f2 f3 : Nat) :
    ((mlfi_envfrom ap ac ctx env auth).2 = Sfsistat.SMFIS_CONTINUE ∨
      (mlfi_envfrom ap ac ctx env auth).2 = Sfsistat.SMFIS_TEMPFAIL) ∧
    (∀ res : Ctx × Sfsistat, mlfi_header caps ctx f v = some res →
      res.2 = (if caps &&& SMFIP_NR_HDR != 0 then Sfsistat.SMFIS_NOREPLY
        else Sfsistat.SMFIS_CONTINUE)) ∧
    (mlfi_abort ctx).2 = Sfsistat.SMFIS_CONTINUE ∧
    (mlfi_negotiate f0 f1 f2 f3).verdict = Sfsistat.SMFIS_CONTINUE := by
  refine ⟨?_, ?_, rfl, rfl⟩
  · cases ap <;> cases ac <;> simp [mlfi_envfrom]
  · intro res hres
    obtain ⟨cp, cr⟩ := ctx
    cases cp with
    | none => exact absurd hres (by simp [mlfi_header])
    | some p =>
      rw [mlfi_header] at hres
      obtain rfl := (Option.some.inj hres).symm
      rfl

/-- Witness for C10 at concrete inputs (header handler included, with a mask
whose no-reply bit is set). -/
theorem C10_witness :
    ((mlfi_envfrom false true
        { priv := some ⟨true, [], 0, false⟩, reply := none } []
        none).2 = Sfsistat.SMFIS_CONTINUE ∨
      (mlfi_envfrom false true
        { priv := some ⟨true, [], 0, false⟩, reply := none } []
        none).2 = Sfsistat.SMFIS_TEMPFAIL) ∧
    (∀ res : Ctx × Sfsistat,
      mlfi_header SMFIP_NR_HDR
          { priv := some ⟨true, [], 0, false⟩, reply := none } [] [] =
        some res →
      res.2 = (if SMFIP_NR_HDR &&& SMFIP_NR_HDR != 0 then
        Sfsistat.SMFIS_NOREPLY else Sfsistat.SMFIS_CONTINUE)) ∧
    (mlfi_abort { priv := some ⟨true, [], 0, false⟩, reply := none }).2 =
      Sfsistat.SMFIS_CONTINUE ∧
    (mlfi_negotiate 0 0 0 0).verdict = Sfsistat.SMFIS_CONTINUE :=
  C10_verdict_ranges SMFIP_NR_HDR false true
    { priv := some ⟨true, [], 0, false⟩, reply := none } [] [] [] none 0 0 0 0

end Milterfrom
